import Mathlib

/-!
# Verification of the AuroCore feature-resolution engine

A shallow embedding of `src/root/services/feature-manager.js` and the parts of
`src/root/auro-core.js` it interacts with. JavaScript objects used as ordered
string-keyed maps are embedded as association lists (`List (String × α)`),
which preserves the insertion-order semantics of JS object iteration:
setting an existing key keeps its position, setting a fresh key appends,
`delete` removes the entry.
-/

set_option autoImplicit false

namespace AuroCore

/-- JS object update semantics: assigning to an existing key keeps its
position and replaces the value; assigning a fresh key appends it. -/
def setKey {α : Type} : List (String × α) → String → α → List (String × α)
  | [], k, v => [(k, v)]
  | kv :: rest, k, v =>
    if kv.1 = k then (k, v) :: rest else kv :: setKey rest k v

/-- JS `delete obj[k]`: removes the entry for `k`, keeping the rest in order. -/
def delKey {α : Type} (m : List (String × α)) (k : String) : List (String × α) :=
  m.filter (fun kv => kv.1 ≠ k)

mutual

/-- Config values: an opaque atom (number, string, …, identified by a `Nat`
code) or a plain object with ordered fields. Mirrors the opaque deep-mergeable
key-value bags stored under the `config` key of a feature declaration. -/
inductive CVal where
  | atom : Nat → CVal
  | obj : CFields → CVal
  deriving Repr, DecidableEq

/-- Ordered fields of a plain config object. -/
inductive CFields where
  | nil : CFields
  | cons : String → CVal → CFields → CFields
  deriving Repr, DecidableEq

end

/-- First value bound to `k` in the field list, if any. -/
def findField (k : String) : CFields → Option CVal
  | .nil => none
  | .cons k2 v rest => if k2 = k then some v else findField k rest

/-- Remove every binding of `k` from the field list. -/
def removeField (k : String) : CFields → CFields
  | .nil => .nil
  | .cons k2 v rest =>
    if k2 = k then removeField k rest else .cons k2 v (removeField k rest)

mutual

/-- `lodash.merge` on two values: plain objects merge recursively key by key;
any other source value replaces the destination outright. `mergeVal a b` is
`merge(a, b)` with `b` the later source, so `b` wins on conflicts. -/
def mergeVal : CVal → CVal → CVal
  | .obj a, .obj b => .obj (mergeFields a b)
  | _, b => b

/-- `lodash.merge` on object fields: keys of the destination keep their
positions (recursively merged with the source's value when the source also
binds them); source-only keys are appended in source order. -/
def mergeFields : CFields → CFields → CFields
  | .nil, b => b
  | .cons k v rest, b =>
    match findField k b with
    | some w => .cons k (mergeVal v w) (mergeFields rest (removeField k b))
    | none => .cons k v (mergeFields rest b)

end

example : mergeVal (.obj (.cons "a" (.atom 1) .nil)) (.obj (.cons "a" (.atom 2) .nil))
    = .obj (.cons "a" (.atom 2) .nil) := by decide

/-- A value of a `properties` patch inside a feature override: the string
sentinel `'disable'` (which strips the property) or a property descriptor
(opaque, identified by a `Nat` code). -/
inductive PropPatch where
  | disableProp : PropPatch
  | desc : Nat → PropPatch
  deriving Repr, DecidableEq

/-- One entry of a class's `static get features` object: the string sentinel
`'disable'`, or an object holding an optional `config` patch and an optional
`properties` patch (absent sub-objects are embedded as empty lists, which the
source treats identically via `|| {}`). -/
inductive FeatureConfig where
  | disable : FeatureConfig
  | entry : CFields → List (String × PropPatch) → FeatureConfig
  deriving Repr, DecidableEq

/-- One entry of a class's `static get provides` object:
`{ class: FeatureClass, config: defaultConfig = {}, enabled = true }`.
The feature class is identified by a `Nat` key into a table of module
property schemas. -/
structure FeatureDef where
  klass : Nat
  config : CFields
  enabled : Bool
  deriving Repr, DecidableEq

/-- One link of the prototype chain: the class's own `provides` and
`features` static objects. A chain is listed leaf (most derived) first, and
stops at the `LitElement` boundary, exactly as the `while` loops in
`getInheritedProvides` / `getInheritedConfigs` walk it. -/
structure ClassNode where
  provides : List (String × FeatureDef)
  features : List (String × FeatureConfig)
  deriving Repr, DecidableEq

/-- Body of the `forEach` in `FeatureManager.getInheritedProvides`: a
declaration is kept only if its name is not yet present (first-encountered,
i.e. most-derived, wins; insertion order is first-encounter order). -/
def provStep (features : List (String × FeatureDef)) (kv : String × FeatureDef) :
    List (String × FeatureDef) :=
  if (features.lookup kv.1).isSome then features else features ++ [kv]

/-- `FeatureManager.getInheritedProvides`: fold the chain leaf-to-root,
collecting each class's `provides` in order. -/
def getInheritedProvides (chain : List ClassNode) : List (String × FeatureDef) :=
  chain.foldl (fun acc node => node.provides.foldl provStep acc) []

/-- The declaration of `name` in the most-derived class of the chain that
declares it: the reference the resolved provisions are measured against. -/
def firstDeclProvides : List ClassNode → String → Option FeatureDef
  | [], _ => none
  | n :: rest, name => ((n.provides.lookup name).or (firstDeclProvides rest name))

/-- The `properties` part of the merge arm of `getInheritedConfigs`:
`mergedProps = { ...prevProps }`, then each entry of the newly visited
(ancestor) class's patch either deletes its key (`'disable'`) or
sets/replaces it. -/
def mergeProps (prevProps nextProps : List (String × PropPatch)) :
    List (String × PropPatch) :=
  nextProps.foldl
    (fun acc kv =>
      match kv.2 with
      | .disableProp => delKey acc kv.1
      | .desc d => setKey acc kv.1 (.desc d))
    prevProps

/-- Body of the `forEach` in `FeatureManager.getInheritedConfigs`, for one
`[name, config]` entry of the currently visited class:
store-first / disable-overwrites / disabled-is-terminal / else deep-merge. -/
def configStep (configs : List (String × FeatureConfig)) (kv : String × FeatureConfig) :
    List (String × FeatureConfig) :=
  match configs.lookup kv.1 with
  | none => configs ++ [kv]
  | some stored =>
    match kv.2 with
    | .disable => setKey configs kv.1 .disable
    | .entry nextConfig nextProps =>
      match stored with
      | .disable => configs
      | .entry prevConfig prevProps =>
        setKey configs kv.1
          (.entry (mergeFields prevConfig nextConfig) (mergeProps prevProps nextProps))

/-- `FeatureManager.getInheritedConfigs`: fold the chain leaf-to-root,
processing each class's `features` entries in order. -/
def getInheritedConfigs (chain : List ClassNode) : List (String × FeatureConfig) :=
  chain.foldl (fun acc node => node.features.foldl configStep acc) []

/-- A table assigning each feature class (by its `Nat` key) its
`static properties` schema: property name → descriptor code. -/
def ModuleProps : Type := Nat → List (String × Nat)

/-- The `mergedProperties` computation of `prepareFeatures`: start from
`{ ...FeatureClass.properties }`, then apply the resolved override's
`properties` patch — `'disable'` deletes the key, a descriptor sets/replaces. -/
def applyPropPatch (base : List (String × Nat)) (patch : List (String × PropPatch)) :
    List (String × Nat) :=
  patch.foldl
    (fun acc kv =>
      match kv.2 with
      | .disableProp => delKey acc kv.1
      | .desc d => setKey acc kv.1 d)
    base

/-- Body of the outer `forEach` of `FeatureManager.prepareFeatures` for one
provided feature, threading the `constructor._featureProperties` registry:
skip when the resolved config is `'disable'`, skip when the declaration has
`enabled: false` (note: the source skips here irrespective of the resolved
config), else merge the module's schema with the resolved `properties` patch
and assign each merged property into the registry. -/
def prepareStep (mp : ModuleProps) (featureConfigs : List (String × FeatureConfig))
    (reg : List (String × Nat)) (kv : String × FeatureDef) : List (String × Nat) :=
  match featureConfigs.lookup kv.1 with
  | some .disable => reg
  | fc =>
    if !kv.2.enabled then reg
    else
      let mergedProperties :=
        match fc with
        | some (.entry _ props) => applyPropPatch (mp kv.2.klass) props
        | _ => mp kv.2.klass
      mergedProperties.foldl (fun r p => setKey r p.1 p.2) reg

/-- `FeatureManager.prepareFeatures`, restricted to a single class whose
feature-property registry starts as `reg`: fold `prepareStep` over the
inherited provides. (The once-per-class guard and the shared static registry
are modeled separately for the registration-time claims.) -/
def prepareFeaturesInto (mp : ModuleProps) (reg : List (String × Nat))
    (chain : List ClassNode) : List (String × Nat) :=
  (getInheritedProvides chain).foldl (prepareStep mp (getInheritedConfigs chain)) reg

/-- The feature-contributed property schema `prepareFeatures` computes for a
class when it runs against a fresh registry. -/
def classFeatureProps (mp : ModuleProps) (chain : List ClassNode) : List (String × Nat) :=
  prepareFeaturesInto mp [] chain

/-- A module instance record produced by `_initializeFeatures`: feature name,
feature class, and the `finalConfig` passed to the constructor. -/
structure Instance where
  name : String
  klass : Nat
  finalConfig : CFields
  deriving Repr, DecidableEq

/-- The per-entry logic of `FeatureManager._initializeFeatures`: skip when the
resolved config is `'disable'`; with no resolved config, instantiate only
when `enabled` (default true) with the bare `defaultConfig`; with a resolved
(non-disable) config, always instantiate with
`merge({}, defaultConfig, featureConfig.config || {})`. Instances are
appended in processing order (the `Map` insertion order). -/
def initFeaturesGo (configs : List (String × FeatureConfig)) :
    List (String × FeatureDef) → List Instance
  | [] => []
  | (name, fd) :: rest =>
    match configs.lookup name with
    | some .disable => initFeaturesGo configs rest
    | none =>
      if fd.enabled then
        ⟨name, fd.klass, fd.config⟩ :: initFeaturesGo configs rest
      else
        initFeaturesGo configs rest
    | some (.entry c _) =>
      ⟨name, fd.klass, mergeFields fd.config c⟩ :: initFeaturesGo configs rest

/-- `FeatureManager._initializeFeatures`: resolve provides and configs over
the host's chain and build the `_featureInstances` map in iteration order. -/
def initializeFeatures (chain : List ClassNode) : List Instance :=
  initFeaturesGo (getInheritedConfigs chain) (getInheritedProvides chain)

/-- The "effective-enabled" bit of a resolved entry, read off the condition
`_initializeFeatures` uses: not resolved-`'disable'`, and (some override
present, or `enabled` defaulting to true). -/
def effectiveEnabled (configs : List (String × FeatureConfig)) (name : String)
    (fd : FeatureDef) : Bool :=
  match configs.lookup name with
  | some .disable => false
  | none => fd.enabled
  | some (.entry _ _) => true

/-- Behavior of one lifecycle hook when invoked: return normally (with an
opaque result code) or throw an exception (with an opaque error code). -/
inductive HookBehavior where
  | ret : Nat → HookBehavior
  | raise : Nat → HookBehavior
  deriving Repr, DecidableEq

/-- A feature instance as seen by `processLifecycle`: its key in the
`_featureInstances` map and, for each method name it implements, the
behavior of calling it. A missing name models
`typeof feature[methodName] !== 'function'`. -/
structure ModuleInst where
  name : String
  hooks : List (String × HookBehavior)
  deriving Repr, DecidableEq

/-- Whether the instance implements the given hook
(`typeof feature[methodName] === 'function'`). -/
def hasHook (method : String) (m : ModuleInst) : Bool :=
  (m.hooks.lookup method).isSome

/-- Whether the given behavior is a throwing one. -/
def HookBehavior.isRaise : HookBehavior → Bool
  | .raise _ => true
  | .ret _ => false

/-- Whether invoking `method` on the instance cannot throw: it either lacks
the method or returns normally. -/
def noRaise (method : String) (m : ModuleInst) : Bool :=
  match m.hooks.lookup method with
  | some b => !b.isRaise
  | none => true

/-- The `forEach` of `FeatureManager.processLifecycle`, run over the
instances in map insertion order: skip an instance lacking the method,
invoke it otherwise; a thrown exception escapes the `forEach` synchronously,
so iteration stops there. Returns the names of the instances actually
invoked, in order, together with the escaped exception if any. -/
def runHooks (method : String) : List ModuleInst → List String × Option Nat
  | [] => ([], none)
  | m :: rest =>
    match m.hooks.lookup method with
    | none => runHooks method rest
    | some (.ret _) =>
      let t := runHooks method rest
      (m.name :: t.1, t.2)
    | some (.raise e) => ([m.name], some e)

/-- The `_featureInstances` state of one `FeatureManager`. -/
structure FMState where
  featureInstances : List ModuleInst
  deriving Repr, DecidableEq

/-- `FeatureManager.processLifecycle`: dispatch over `_featureInstances`,
which it reads but never modifies — the resulting state is returned alongside
the invocation trace and the escaped exception. -/
def processLifecycle (s : FMState) (method : String) :
    FMState × List String × Option Nat :=
  (s, runHooks method s.featureInstances)

/-- A registered class as the static machinery sees it: its identity, the
identities of its ancestors below the `LitElement` boundary (for the
prototype-chain lookup of `_featuresInitialized`), and its declaration
chain. -/
structure Klass where
  id : Nat
  superIds : List Nat
  chain : List ClassNode
  deriving Repr, DecidableEq

/-- The static state touched by `FeatureManager.prepareFeatures` across the
whole class hierarchy. `AuroCore` declares `static _featureProperties = {}`,
an own property of the base class; a subclass's `constructor._featureProperties`
lookup walks the prototype chain and finds that same (truthy) object, so the
`if (!constructor._featureProperties)` guard never installs a per-class
registry and every write lands in the one shared object — modeled as the
single `featureProps` map. `constructor._featuresInitialized` is likewise
found through the chain, so a class counts as initialized when it or any
ancestor has the own flag — modeled as the `initializedIds` list. -/
structure RegState where
  featureProps : List (String × Nat)
  initializedIds : List Nat
  deriving Repr, DecidableEq

/-- `FeatureManager.prepareFeatures(constructor)` at the static level: return
unchanged when the inherited `_featuresInitialized` lookup is truthy, else
fold the class's provides into the shared registry and set the class's own
flag. -/
def prepareFeaturesStatic (mp : ModuleProps) (s : RegState) (k : Klass) : RegState :=
  if (k.id :: k.superIds).any (fun i => s.initializedIds.contains i) then s
  else
    { featureProps := prepareFeaturesInto mp s.featureProps k.chain
      initializedIds := s.initializedIds ++ [k.id] }

/-- `AuroCore.register` called on a sequence of classes in order, starting
from the initial static state (empty shared registry, no flags). -/
def registerClasses (mp : ModuleProps) (ks : List Klass) : RegState :=
  ks.foldl (prepareFeaturesStatic mp) ⟨[], []⟩

/-- `static get properties` of `AuroCore`: spread the feature registry, then
the base (direct) properties, base winning on conflicts. -/
def publishedProperties (s : RegState) (base : List (String × Nat)) :
    List (String × Nat) :=
  base.foldl (fun acc kv => setKey acc kv.1 kv.2) s.featureProps

/-! ## Concrete scenarios

Small hierarchies used to evaluate the engine at specific inputs. -/

/-- Leaf of a 3-level chain patching feature `x` with `{ config: { a: { k: 1 } } }`. -/
def leafC1 : ClassNode :=
  ⟨[], [("x", .entry (.cons "a" (.obj (.cons "k" (.atom 1) .nil)) .nil) [])]⟩

/-- Middle class patching feature `x` with `{ config: { a: { k: 2 } } }`. -/
def midC1 : ClassNode :=
  ⟨[], [("x", .entry (.cons "a" (.obj (.cons "k" (.atom 2) .nil)) .nil) [])]⟩

/-- Root class providing feature `x` (module 0, empty default config, enabled). -/
def rootC1 : ClassNode := ⟨[("x", ⟨0, .nil, true⟩)], []⟩

/-- Scenario A root: provides `layout` (module 0), enabled by default, with a
default config. -/
def rootA : ClassNode := ⟨[("layout", ⟨0, .cons "layout" (.atom 7) .nil, true⟩)], []⟩

/-- Scenario A middle class: provides `focus` (module 1) with
`enabled: false`. -/
def midA : ClassNode := ⟨[("focus", ⟨1, .nil, false⟩)], []⟩

/-- Scenario A leaf: its `features` override opts into `focus`. -/
def leafA : ClassNode := ⟨[], [("focus", .entry .nil [])]⟩

/-- Module property table for the focus scenario: module 1 (`focus`)
declares property `fp`. -/
def mpC6 : ModuleProps := fun i => if i = 1 then [("fp", 5)] else []

/-- Scenario C root (class A): provides `x` (module 0), enabled. -/
def aC4 : ClassNode := ⟨[("x", ⟨0, .nil, true⟩)], []⟩

/-- Scenario C middle (class B): its override disables property `p` of `x`. -/
def bC4 : ClassNode := ⟨[], [("x", .entry .nil [("p", .disableProp)])]⟩

/-- Scenario C leaf (class C): declares nothing of its own. -/
def cC4 : ClassNode := ⟨[], []⟩

/-- A class providing two features whose modules collide on property `p`:
`f1` is module 0, `f2` is module 1, processed in that order. -/
def nodeC8 : ClassNode := ⟨[("f1", ⟨0, .nil, true⟩), ("f2", ⟨1, .nil, true⟩)], []⟩

/-- Module table for the collision scenario: module 0 declares `p` with
descriptor 1, module 1 declares `p` with descriptor 2. -/
def mpC8 : ModuleProps := fun i => if i = 0 then [("p", 1)] else [("p", 2)]

/-- Module table for the registration scenario: module 0 declares `p`,
module 1 declares `q`. -/
def mpC7 : ModuleProps := fun i => if i = 0 then [("p", 1)] else [("q", 2)]

/-- Registered class A (id 1, direct subclass of the base id 0): provides
feature `fa` backed by module 0. -/
def kA : Klass := ⟨1, [0], [⟨[("fa", ⟨0, .nil, true⟩)], []⟩]⟩

/-- Registered class B (id 2, direct subclass of the base id 0, unrelated to
A): provides feature `fb` backed by module 1. -/
def kB : Klass := ⟨2, [0], [⟨[("fb", ⟨1, .nil, true⟩)], []⟩]⟩

/-! ## Basic lemmas about the JS-object primitives -/

theorem lookup_nil {α : Type} (k : String) : ([] : List (String × α)).lookup k = none := rfl

theorem lookup_cons {α : Type} (kv : String × α) (m : List (String × α)) (k : String) :
    (kv :: m).lookup k = if k = kv.1 then some kv.2 else m.lookup k := by
  rcases kv with ⟨k2, v⟩
  by_cases h : k = k2
  · simp [List.lookup, h]
  · have hb : (k == k2) = false := beq_eq_false_iff_ne.mpr h
    simp [List.lookup, hb, h]

theorem delKey_cons {α : Type} (kv : String × α) (m : List (String × α)) (k : String) :
    delKey (kv :: m) k = if kv.1 = k then delKey m k else kv :: delKey m k := by
  by_cases h : kv.1 = k <;> simp [delKey, List.filter_cons, h]

theorem lookup_append {α : Type} (l1 l2 : List (String × α)) (k : String) :
    (l1 ++ l2).lookup k = ((l1.lookup k).or (l2.lookup k)) := by
  induction l1 with
  | nil => simp [lookup_nil]
  | cons kv rest ih =>
    by_cases h : k = kv.1 <;> simp [lookup_cons, h, ih]

theorem lookup_setKey_self {α : Type} (m : List (String × α)) (k : String) (v : α) :
    (setKey m k v).lookup k = some v := by
  induction m with
  | nil => simp [setKey, lookup_cons]
  | cons kv rest ih =>
    by_cases h : kv.1 = k
    · simp [setKey, h, lookup_cons]
    · simp [setKey, h, lookup_cons, Ne.symm h, ih]

theorem lookup_setKey_ne {α : Type} (m : List (String × α)) (k j : String) (v : α)
    (h : j ≠ k) : (setKey m k v).lookup j = m.lookup j := by
  induction m with
  | nil => simp [setKey, lookup_cons, lookup_nil, h]
  | cons kv rest ih =>
    by_cases h2 : kv.1 = k
    · simp [setKey, h2, lookup_cons, h, h2 ▸ h]
    · by_cases h3 : j = kv.1 <;> simp [setKey, h2, lookup_cons, h3, ih]

theorem lookup_delKey_self {α : Type} (m : List (String × α)) (k : String) :
    (delKey m k).lookup k = none := by
  induction m with
  | nil => simp [delKey, lookup_nil]
  | cons kv rest ih =>
    by_cases h : kv.1 = k
    · simpa [delKey_cons, h] using ih
    · simpa [delKey_cons, h, lookup_cons, Ne.symm h] using ih

theorem lookup_delKey_ne {α : Type} (m : List (String × α)) (k j : String)
    (h : j ≠ k) : (delKey m k).lookup j = m.lookup j := by
  induction m with
  | nil => simp [delKey, lookup_nil]
  | cons kv rest ih =>
    by_cases h2 : kv.1 = k
    · simp [delKey_cons, h2, lookup_cons, h, ih]
    · by_cases h3 : j = kv.1 <;> simp [delKey_cons, h2, lookup_cons, h3, ih]

theorem lookup_eq_none_iff_not_mem {α : Type} (m : List (String × α)) (k : String) :
    m.lookup k = none ↔ k ∉ m.map Prod.fst := by
  induction m with
  | nil => simp [lookup_nil]
  | cons kv rest ih =>
    by_cases h : k = kv.1 <;> simp [lookup_cons, h, ih]

/-! ## Resolution of provides (ProvisionResolver) -/

theorem lookup_foldl_provStep (ps : List (String × FeatureDef))
    (acc : List (String × FeatureDef)) (name : String) :
    (ps.foldl provStep acc).lookup name = ((acc.lookup name).or (ps.lookup name)) := by
  induction ps generalizing acc with
  | nil => simp [lookup_nil]
  | cons kv rest ih =>
    simp only [List.foldl_cons, ih, lookup_cons]
    by_cases h : name = kv.1
    · subst h
      by_cases h2 : (acc.lookup kv.1).isSome
      · obtain ⟨d, hd⟩ := Option.isSome_iff_exists.mp h2
        simp [provStep, h2, hd]
      · have hn : acc.lookup kv.1 = none := Option.not_isSome_iff_eq_none.mp h2
        simp [provStep, hn, lookup_append, lookup_cons]
    · by_cases h2 : (acc.lookup kv.1).isSome
      · simp [provStep, h2, h]
      · have hn : acc.lookup kv.1 = none := Option.not_isSome_iff_eq_none.mp h2
        simp [provStep, hn, lookup_append, lookup_cons, h]

theorem lookup_getInheritedProvides_go (chain : List ClassNode)
    (acc : List (String × FeatureDef)) (name : String) :
    ((chain.foldl (fun acc node => node.provides.foldl provStep acc) acc).lookup name) =
      ((acc.lookup name).or (firstDeclProvides chain name)) := by
  induction chain generalizing acc with
  | nil => simp [firstDeclProvides]
  | cons node rest ih =>
    simp only [List.foldl_cons, ih, lookup_foldl_provStep, firstDeclProvides,
      Option.or_assoc]

theorem keys_nodup_foldl_provStep (ps : List (String × FeatureDef))
    (acc : List (String × FeatureDef)) (h : (acc.map Prod.fst).Nodup) :
    ((ps.foldl provStep acc).map Prod.fst).Nodup := by
  induction ps generalizing acc with
  | nil => exact h
  | cons kv rest ih =>
    refine ih (provStep acc kv) ?_
    by_cases h2 : (acc.lookup kv.1).isSome
    · simpa [provStep, h2] using h
    · have hn : acc.lookup kv.1 = none := Option.not_isSome_iff_eq_none.mp h2
      have hmem : kv.1 ∉ acc.map Prod.fst := (lookup_eq_none_iff_not_mem acc kv.1).mp hn
      simp [provStep, hn, List.nodup_append, h, hmem]

theorem keys_nodup_getInheritedProvides (chain : List ClassNode) :
    ((getInheritedProvides chain).map Prod.fst).Nodup := by
  have go : ∀ (c : List ClassNode) (acc : List (String × FeatureDef)),
      (acc.map Prod.fst).Nodup →
      (((c.foldl (fun acc node => node.provides.foldl provStep acc) acc).map Prod.fst).Nodup) := by
    intro c
    induction c with
    | nil => intro acc h; exact h
    | cons node rest ih =>
      intro acc h
      exact ih _ (keys_nodup_foldl_provStep node.provides acc h)
  simpa [getInheritedProvides] using go chain [] (by simp)

/-! ## Resolution of configs (ConfigResolver) -/

theorem configStep_preserves_disable (configs : List (String × FeatureConfig))
    (kv : String × FeatureConfig) (name : String)
    (h : configs.lookup name = some .disable) :
    (configStep configs kv).lookup name = some .disable := by
  by_cases hk : kv.1 = name
  · subst hk
    simp only [configStep, h]
    cases hkv : kv.2 with
    | disable => simp [lookup_setKey_self]
    | entry c p => exact h
  · have hne : name ≠ kv.1 := fun hh => hk hh.symm
    unfold configStep
    cases hc : configs.lookup kv.1 with
    | none => simp [lookup_append, h]
    | some stored =>
      cases hkv : kv.2 with
      | disable => simp [lookup_setKey_ne _ _ _ _ hne, h]
      | entry c p =>
        cases stored with
        | disable => exact h
        | entry pc pp => simp [lookup_setKey_ne _ _ _ _ hne, h]

theorem foldl_configStep_preserves_disable (fs : List (String × FeatureConfig))
    (acc : List (String × FeatureConfig)) (name : String)
    (h : acc.lookup name = some .disable) :
    (fs.foldl configStep acc).lookup name = some .disable := by
  induction fs generalizing acc with
  | nil => exact h
  | cons kv rest ih => exact ih _ (configStep_preserves_disable acc kv name h)

theorem chain_foldl_configStep_preserves_disable (c : List ClassNode)
    (acc : List (String × FeatureConfig)) (name : String)
    (h : acc.lookup name = some .disable) :
    ((c.foldl (fun acc node => node.features.foldl configStep acc) acc).lookup name)
      = some .disable := by
  induction c generalizing acc with
  | nil => exact h
  | cons node rest ih =>
    exact ih _ (foldl_configStep_preserves_disable node.features acc name h)

theorem getInheritedConfigs_append (c1 c2 : List ClassNode) :
    getInheritedConfigs (c1 ++ c2) =
      c2.foldl (fun acc node => node.features.foldl configStep acc)
        (getInheritedConfigs c1) := by
  simp [getInheritedConfigs, List.foldl_append]

theorem initFeaturesGo_disabled_not_mem (configs : List (String × FeatureConfig))
    (provides : List (String × FeatureDef)) (name : String)
    (h : configs.lookup name = some .disable) :
    name ∉ (initFeaturesGo configs provides).map Instance.name := by
  induction provides with
  | nil => simp [initFeaturesGo]
  | cons kv rest ih =>
    rcases kv with ⟨n, fd⟩
    by_cases hn : n = name
    · subst hn
      simpa [initFeaturesGo, h] using ih
    · have hne : name ≠ n := fun hh => hn hh.symm
      cases hc : configs.lookup n with
      | none =>
        by_cases he : fd.enabled <;>
          simpa [initFeaturesGo, hc, he, hne] using ih
      | some stored =>
        cases stored with
        | disable => simpa [initFeaturesGo, hc] using ih
        | entry c p => simpa [initFeaturesGo, hc, hne] using ih

/-! ## Instantiation and lifecycle lemmas -/

theorem initFeaturesGo_names (configs : List (String × FeatureConfig))
    (provides : List (String × FeatureDef)) :
    (initFeaturesGo configs provides).map Instance.name =
      ((provides.filter (fun kv => effectiveEnabled configs kv.1 kv.2)).map Prod.fst) := by
  induction provides with
  | nil => simp [initFeaturesGo]
  | cons kv rest ih =>
    rcases kv with ⟨n, fd⟩
    cases hc : configs.lookup n with
    | none =>
      by_cases he : fd.enabled <;>
        simp [initFeaturesGo, effectiveEnabled, hc, he, ih, List.filter_cons]
    | some stored =>
      cases stored with
      | disable => simp [initFeaturesGo, effectiveEnabled, hc, ih, List.filter_cons]
      | entry c p => simp [initFeaturesGo, effectiveEnabled, hc, ih, List.filter_cons]

theorem runHooks_no_raise (method : String) :
    ∀ insts : List ModuleInst,
      (∀ m ∈ insts, noRaise method m = true) →
      runHooks method insts = ((insts.filter (hasHook method)).map ModuleInst.name, none)
  | [], _ => by simp [runHooks]
  | m :: rest, h => by
    have hrest := runHooks_no_raise method rest (fun m2 hm => h m2 (List.mem_cons_of_mem m hm))
    cases hm : m.hooks.lookup method with
    | none => simp [runHooks, hm, hrest, List.filter_cons, hasHook]
    | some b =>
      cases b with
      | ret v => simp [runHooks, hm, hrest, List.filter_cons, hasHook]
      | raise e =>
        have := h m (List.mem_cons_self m rest)
        simp [noRaise, hm, HookBehavior.isRaise] at this

theorem runHooks_raise_at (method : String) (m : ModuleInst) (e : Nat)
    (post : List ModuleInst) (hm : m.hooks.lookup method = some (.raise e)) :
    ∀ pre : List ModuleInst,
      (∀ m2 ∈ pre, noRaise method m2 = true) →
      runHooks method (pre ++ m :: post) =
        ((pre.filter (hasHook method)).map ModuleInst.name ++ [m.name], some e)
  | [], _ => by simp [runHooks, hm]
  | m2 :: rest, h => by
    have hrest := runHooks_raise_at method m e post hm rest
      (fun m3 hm3 => h m3 (List.mem_cons_of_mem m2 hm3))
    cases hm2 : m2.hooks.lookup method with
    | none => simp [runHooks, hm2, hrest, List.filter_cons, hasHook]
    | some b =>
      cases b with
      | ret v => simp [runHooks, hm2, hrest, List.filter_cons, hasHook]
      | raise e2 =>
        have := h m2 (List.mem_cons_self m2 rest)
        simp [noRaise, hm2, HookBehavior.isRaise] at this

/-! ## Claim theorems -/

/-- C2: For every ancestor chain, the resolved provisions map holds exactly
one `ProvisionEntry` per feature name (its keys are pairwise distinct), and
the entry for each name equals the whole declaration of the most-derived
class declaring that name — an ancestor's declaration of an already-seen
name is discarded wholesale, never merged field-by-field. -/
theorem provides_resolution_most_derived_wins :
    ∀ chain : List ClassNode,
      (((getInheritedProvides chain).map Prod.fst).Nodup) ∧
      (∀ name : String,
        (getInheritedProvides chain).lookup name = firstDeclProvides chain name) := by
  intro chain
  refine ⟨keys_nodup_getInheritedProvides chain, fun name => ?_⟩
  simpa [getInheritedProvides] using lookup_getInheritedProvides_go chain [] name

/-- C3: Once the leaf-to-root fold of overrides has recorded `'disable'` for
a feature name after some prefix of the chain, processing any further
(more ancestral) classes leaves the entry `'disable'`, and no module
instance for that feature is created on a host of the full class. -/
theorem disable_is_terminal_and_blocks_instantiation :
    ∀ (c1 c2 : List ClassNode) (name : String),
      (getInheritedConfigs c1).lookup name = some .disable →
      ((getInheritedConfigs (c1 ++ c2)).lookup name = some .disable ∧
        name ∉ (initializeFeatures (c1 ++ c2)).map Instance.name) := by
  intro c1 c2 name h
  have hfull : (getInheritedConfigs (c1 ++ c2)).lookup name = some .disable := by
    rw [getInheritedConfigs_append]
    exact chain_foldl_configStep_preserves_disable c2 _ name h
  exact ⟨hfull, initFeaturesGo_disabled_not_mem _ _ name hfull⟩

/-- Witness for C3 on a concrete two-class chain: the leaf disables `x`, the
ancestor both re-declares `x` (with a non-disable override) and provides it;
`x` stays disabled and is not instantiated. -/
theorem disable_is_terminal_witness :
    (getInheritedConfigs [⟨[], [("x", .disable)]⟩]).lookup "x" = some .disable ∧
    ((getInheritedConfigs
        ([⟨[], [("x", .disable)]⟩] ++ [⟨[("x", ⟨0, .nil, true⟩)], [("x", .entry .nil [])]⟩])).lookup "x"
          = some .disable ∧
      "x" ∉ (initializeFeatures
        ([⟨[], [("x", .disable)]⟩] ++ [⟨[("x", ⟨0, .nil, true⟩)], [("x", .entry .nil [])]⟩])).map
          Instance.name) :=
  ⟨by decide,
    disable_is_terminal_and_blocks_instantiation
      [⟨[], [("x", .disable)]⟩] [⟨[("x", ⟨0, .nil, true⟩)], [("x", .entry .nil [])]⟩] "x"
      (by decide)⟩

/-- C5: A module instance is created exactly for the resolved entries whose
effective-enabled bit is true, in resolution order; consequently a class
whose resolved entries are all ineffective yields zero instances. On
Scenario A, a Leaf-class host instantiates both `focus` and `layout`
(the former only because the leaf's override re-enables the
`enabled: false` declaration of `midA`), while a Mid-class host
instantiates only `layout`. -/
theorem instantiation_iff_effective_enabled :
    (∀ chain : List ClassNode,
      (initializeFeatures chain).map Instance.name =
        ((getInheritedProvides chain).filter
          (fun kv => effectiveEnabled (getInheritedConfigs chain) kv.1 kv.2)).map Prod.fst) ∧
    (∀ chain : List ClassNode,
      (initializeFeatures chain = [] ↔
        (getInheritedProvides chain).filter
          (fun kv => effectiveEnabled (getInheritedConfigs chain) kv.1 kv.2) = [])) ∧
    (initializeFeatures [leafA, midA, rootA]).map Instance.name = ["focus", "layout"] ∧
    (initializeFeatures [midA, rootA]).map Instance.name = ["layout"] := by
  have hnames : ∀ chain : List ClassNode,
      (initializeFeatures chain).map Instance.name =
        ((getInheritedProvides chain).filter
          (fun kv => effectiveEnabled (getInheritedConfigs chain) kv.1 kv.2)).map Prod.fst :=
    fun chain => initFeaturesGo_names (getInheritedConfigs chain) (getInheritedProvides chain)
  refine ⟨hnames, fun chain => ?_, by decide, by decide⟩
  constructor
  · intro hempty
    have := hnames chain
    rw [hempty] at this
    exact List.map_eq_nil_iff.mp this.symm
  · intro hempty
    have := hnames chain
    rw [hempty] at this
    simpa using List.map_eq_nil_iff.mp this

/-- C9: When no hook of the dispatched name throws, `processLifecycle`
invokes exactly the registered instances implementing the method, in the
`_featureInstances` map order, skips instances lacking it, raises no
exception, and leaves the registered set unchanged. -/
theorem lifecycle_dispatch_order_and_skip :
    ∀ (s : FMState) (method : String),
      (∀ m ∈ s.featureInstances, noRaise method m = true) →
      processLifecycle s method =
        (s, ((s.featureInstances.filter (hasHook method)).map ModuleInst.name, none)) := by
  intro s method h
  simp [processLifecycle, runHooks_no_raise method s.featureInstances h]

/-- Witness for C9: three instances, the middle one lacking the hook; the
other two are invoked in map order and the missing hook raises nothing. -/
theorem lifecycle_dispatch_order_witness :
    (∀ m ∈ (FMState.mk [⟨"a", [("connectedCallback", .ret 0)]⟩, ⟨"b", []⟩,
        ⟨"c", [("connectedCallback", .ret 1)]⟩]).featureInstances,
      noRaise "connectedCallback" m = true) ∧
    processLifecycle
        (FMState.mk [⟨"a", [("connectedCallback", .ret 0)]⟩, ⟨"b", []⟩,
          ⟨"c", [("connectedCallback", .ret 1)]⟩]) "connectedCallback" =
      (FMState.mk [⟨"a", [("connectedCallback", .ret 0)]⟩, ⟨"b", []⟩,
          ⟨"c", [("connectedCallback", .ret 1)]⟩],
        (["a", "c"], none)) :=
  ⟨by decide,
    by
      rw [lifecycle_dispatch_order_and_skip
        (FMState.mk [⟨"a", [("connectedCallback", .ret 0)]⟩, ⟨"b", []⟩,
          ⟨"c", [("connectedCallback", .ret 1)]⟩]) "connectedCallback" (by decide)]
      decide⟩

/-- C10: If the first throwing hook in dispatch order is `m` (all earlier
instances return or lack the method), the exception escapes
`processLifecycle` synchronously with the trace stopping at `m`; no
instance after `m` is invoked (the result does not depend on `post`), the
`_featureInstances` state is returned unchanged, and `m` is still among the
registered instances afterward. -/
theorem hook_exception_fail_fast :
    ∀ (pre post : List ModuleInst) (m : ModuleInst) (e : Nat) (method : String) (s : FMState),
      s.featureInstances = pre ++ m :: post →
      m.hooks.lookup method = some (.raise e) →
      (∀ m2 ∈ pre, noRaise method m2 = true) →
      (processLifecycle s method =
        (s, ((pre.filter (hasHook method)).map ModuleInst.name ++ [m.name], some e)) ∧
        m ∈ (processLifecycle s method).1.featureInstances) := by
  intro pre post m e method s hs hm h
  have hrun := runHooks_raise_at method m e post hm pre h
  constructor
  · simp [processLifecycle, hs, hrun]
  · simp [processLifecycle, hs]

/-- Witness for C10: the second of three instances throws; the first is
invoked, the third is not, the error escapes, and the thrower remains
registered. -/
theorem hook_exception_fail_fast_witness :
    ((FMState.mk [⟨"a", [("cb", .ret 0)]⟩, ⟨"b", [("cb", .raise 9)]⟩,
        ⟨"c", [("cb", .ret 1)]⟩]).featureInstances =
      [⟨"a", [("cb", .ret 0)]⟩] ++ ⟨"b", [("cb", .raise 9)]⟩ :: [⟨"c", [("cb", .ret 1)]⟩]) ∧
    ((⟨"b", [("cb", .raise 9)]⟩ : ModuleInst).hooks.lookup "cb" = some (.raise 9)) ∧
    (processLifecycle
        (FMState.mk [⟨"a", [("cb", .ret 0)]⟩, ⟨"b", [("cb", .raise 9)]⟩,
          ⟨"c", [("cb", .ret 1)]⟩]) "cb" =
      (FMState.mk [⟨"a", [("cb", .ret 0)]⟩, ⟨"b", [("cb", .raise 9)]⟩,
          ⟨"c", [("cb", .ret 1)]⟩],
        (["a", "b"], some 9)) ∧
      (⟨"b", [("cb", .raise 9)]⟩ : ModuleInst) ∈
        (processLifecycle
          (FMState.mk [⟨"a", [("cb", .ret 0)]⟩, ⟨"b", [("cb", .raise 9)]⟩,
            ⟨"c", [("cb", .ret 1)]⟩]) "cb").1.featureInstances) :=
  ⟨by decide, by decide,
    by
      have h := hook_exception_fail_fast [⟨"a", [("cb", .ret 0)]⟩] [⟨"c", [("cb", .ret 1)]⟩]
        ⟨"b", [("cb", .raise 9)]⟩ 9 "cb"
        (FMState.mk [⟨"a", [("cb", .ret 0)]⟩, ⟨"b", [("cb", .raise 9)]⟩,
          ⟨"c", [("cb", .ret 1)]⟩]) (by decide) (by decide) (by decide)
      refine ⟨?_, h.2⟩
      rw [h.1]
      decide⟩

/-- C1 (evaluation at the failing input): on the 3-level chain where the
leaf patches feature `x` with `{ a: { k: 1 } }` and the middle class with
`{ a: { k: 2 } }`, the fold `merge({}, prevConfig, nextConfig)` passes the
ancestor's patch as the later (winning) lodash source, so the resolved
config carries the middle class's `2` at the nested key — not the leaf's
`1` required by the closer-to-leaf-wins contract. -/
theorem nested_config_merge_ancestor_wins :
    (getInheritedConfigs [leafC1, midC1, rootC1]).lookup "x" =
      some (.entry (.cons "a" (.obj (.cons "k" (.atom 2) .nil)) .nil) []) ∧
    initializeFeatures [leafC1, midC1, rootC1] =
      [⟨"x", 0, .cons "a" (.obj (.cons "k" (.atom 2) .nil)) .nil⟩] := by
  decide

/-- C4: class A provides `x` whose module declares properties `p` and `q`;
child B's override maps `p` to `'disable'`. Both a B-class host's and a
grandchild C-class host's published feature schemas lack `p` while still
carrying the undisabled `q` — for any descriptor codes. -/
theorem disabled_property_absent_from_schema :
    ∀ pd qd : Nat,
      ((classFeatureProps (fun _ => [("p", pd), ("q", qd)]) [bC4, aC4]).lookup "p" = none ∧
        (classFeatureProps (fun _ => [("p", pd), ("q", qd)]) [bC4, aC4]).lookup "q" = some qd) ∧
      ((classFeatureProps (fun _ => [("p", pd), ("q", qd)]) [cC4, bC4, aC4]).lookup "p" = none ∧
        (classFeatureProps (fun _ => [("p", pd), ("q", qd)]) [cC4, bC4, aC4]).lookup "q" = some qd) := by
  intro pd qd
  exact ⟨⟨rfl, rfl⟩, rfl, rfl⟩

/-- C6 (evaluation at the failing input): `focus` is declared
`enabled: false` by `midA` and re-enabled by `leafA`'s override, so its
effective-enabled bit is true and `_initializeFeatures` instantiates it —
yet `prepareFeatures` skips it (its `if (!enabled) return` ignores the
override), so the module's declared property `fp` never reaches the
published schema. -/
theorem override_enabled_feature_missing_from_schema :
    (getInheritedProvides [leafA, midA, rootA]).lookup "focus" = some ⟨1, .nil, false⟩ ∧
    effectiveEnabled (getInheritedConfigs [leafA, midA, rootA]) "focus" ⟨1, .nil, false⟩ = true ∧
    "focus" ∈ (initializeFeatures [leafA, midA, rootA]).map Instance.name ∧
    (classFeatureProps mpC6 [leafA, midA, rootA]).lookup "fp" = none := by
  decide

/-- C7 (evaluation at the failing input): registering class A (feature
property `p`) publishes the schema `[p]`; registering the unrelated class B
(feature property `q`) afterwards mutates the shared
`_featureProperties` object, so A's published schema silently becomes
`[p, q]` — it is not immutable once first published. -/
theorem published_schema_mutated_by_later_registration :
    publishedProperties (registerClasses mpC7 [kA]) [] = [("p", 1)] ∧
    publishedProperties (registerClasses mpC7 [kA, kB]) [] = [("p", 1), ("q", 2)] := by
  decide

/-- C8 counterexample: modules 0 and 1 both contribute property `p`
(descriptors 1 and 2); module 0's feature is processed first, yet the
published schema carries module 1's descriptor — the first-processed
module's descriptor does not win. -/
theorem property_collision_not_first_processed :
    (classFeatureProps mpC8 [nodeC8]).lookup "p" ≠ some 1 ∧
    (classFeatureProps mpC8 [nodeC8]).lookup "p" = some 2 := by
  decide

/-- C8 (amended): when two different modules contribute properties of the
same name with no resolving override, the later-processed module's
descriptor wins in the published schema (each merged property is assigned
into the registry, overwriting earlier ones), and the collision is resolved
silently — the source has no collision detection or error reporting. -/
theorem property_collision_last_processed_wins :
    ∀ d1 d2 : Nat,
      ((classFeatureProps (fun i => if i = 0 then [("p", d1)] else [("p", d2)])
        [nodeC8]).lookup "p") = some d2 := by
  intro d1 d2
  rfl

end AuroCore
